import Mathlib

/-
Verification of the orchestration-core tools of the Multi-agent-bug-fixer
repository (`src/agent_pkg/tools.py`) against its natural-language
specification.

Text is modelled as `List Char` (one entry per Unicode code point, matching
Python's `str` indexing and `len`).  Each tool is embedded as a pure Lean
function over explicit state:

* the search engine (`search_code`, `_with_rg`, `_with_py`) operates on an
  abstract enumeration of scanned files, each given as a path together with
  its lines (keepends form, as produced by Python text-mode file iteration);
* the patch applier (`apply_patch`) operates on a working tree modelled as an
  association list from file path to file contents;
* the test executor (`run_tests`) is modelled as a function of the raw data
  the subprocess call returns (exit code and combined captured output);
* the workspace provisioner (`prepare_repo`) is modelled as a transition on a
  repository-directory state, with each git subcommand given its documented
  effect and failure condition.
-/

namespace AgentTools

/-! ### Generic text helpers (Python string primitives used by tools.py) -/

/-- The Python line-boundary characters recognised by `str.splitlines`
(`\n`, `\r`, `\v`, `\f`, `\x1c`, `\x1d`, `\x1e`, `\x85`, ` `, ` `;
`\r\n` counts as a single boundary and is handled separately). -/
def isLineBreak (c : Char) : Bool :=
  c = '\n' || c = '\r' || c = '\x0b' || c = '\x0c' ||
  c = '\x1c' || c = '\x1d' || c = '\x1e' ||
  c = '\x85' || c = ' ' || c = ' '

/-- Worker for `str.splitlines(keepends=True)`, scanning one character at a
time: `acc` holds the characters of the current line in reverse, and
`pending` records that the previous character was a `'\r'` whose boundary
is still open — a following `'\n'` joins it into the single boundary
`"\r\n"`, anything else closes the line at the bare `'\r'`. -/
def splitKeepGo : List Char → List Char → Bool → List (List Char)
  | [], acc, pending =>
    if pending then [acc.reverse ++ ['\r']]
    else if acc.isEmpty then [] else [acc.reverse]
  | c :: rest, acc, pending =>
    if pending then
      if c = '\n' then (acc.reverse ++ ['\r', '\n']) :: splitKeepGo rest [] false
      else if c = '\r' then (acc.reverse ++ ['\r']) :: splitKeepGo rest [] true
      else if isLineBreak c then
        (acc.reverse ++ ['\r']) :: [c] :: splitKeepGo rest [] false
      else (acc.reverse ++ ['\r']) :: splitKeepGo rest [c] false
    else
      if c = '\r' then splitKeepGo rest acc true
      else if isLineBreak c then (acc.reverse ++ [c]) :: splitKeepGo rest [] false
      else splitKeepGo rest (c :: acc) false

/-- Python `str.splitlines(keepends=True)`. -/
def splitlinesKeep (s : List Char) : List (List Char) :=
  splitKeepGo s [] false

/-- Worker for `str.splitlines()` (no keepends), same scan with the line
terminators dropped from the emitted lines. -/
def splitPlainGo : List Char → List Char → Bool → List (List Char)
  | [], acc, pending =>
    if pending then [acc.reverse]
    else if acc.isEmpty then [] else [acc.reverse]
  | c :: rest, acc, pending =>
    if pending then
      if c = '\n' then acc.reverse :: splitPlainGo rest [] false
      else if c = '\r' then acc.reverse :: splitPlainGo rest [] true
      else if isLineBreak c then acc.reverse :: [] :: splitPlainGo rest [] false
      else acc.reverse :: splitPlainGo rest [c] false
    else
      if c = '\r' then splitPlainGo rest acc true
      else if isLineBreak c then acc.reverse :: splitPlainGo rest [] false
      else splitPlainGo rest (c :: acc) false

/-- Python `str.splitlines()`. -/
def splitlines (s : List Char) : List (List Char) :=
  splitPlainGo s [] false

/-- Python `line.rstrip("\n")`: remove every trailing newline character. -/
def rstripNl (s : List Char) : List Char :=
  (s.reverse.dropWhile (fun c => c = '\n')).reverse

/-- Python `pattern in line` (substring containment). -/
def containsPat (p : List Char) : List Char → Bool
  | [] => p.isEmpty
  | l@(_ :: rest) => p.isPrefixOf l || containsPat p rest

/-- The last line of a text: the longest suffix containing no `'\n'`. -/
def lastLine (s : List Char) : List Char :=
  (s.reverse.takeWhile (fun c => c ≠ '\n')).reverse

/-! ### Search engine (`search_code`, `_with_rg`, `_with_py` in tools.py)

A scanned file is a pair of its path and its lines in keepends form (each
line retains its trailing `'\n'`, exactly as Python text-mode file iteration
and ripgrep's per-match `lines.text` field supply them).  The file
enumeration abstracts the directory walk over the given path roots
(`Path(root).rglob("*")` for the plain backend, ripgrep's own traversal for
the indexed one); binary/unreadable files are skipped by both backends and
therefore absent from the enumeration.  The ripgrep pattern is modelled for
patterns interpreted literally (no regex metacharacters), where a ripgrep
match of a line coincides with substring containment. -/

/-- A search hit: `{path, line, snippet}` with a 1-based line number. -/
structure Hit where
  path : String
  line : Nat
  snippet : List Char
deriving DecidableEq

/-- All matching lines of one file, 1-based from index `i`, in line order:
the match stream that the inner loop of `_with_py` consumes and that ripgrep
produces for one file (before its `--max-count` cap). -/
def fileHitsFrom (pattern : List Char) (path : String) :
    List (List Char) → Nat → List Hit
  | [], _ => []
  | line :: rest, i =>
    if containsPat pattern line then
      ⟨path, i, rstripNl line⟩ :: fileHitsFrom pattern path rest (i + 1)
    else fileHitsFrom pattern path rest (i + 1)

/-- All matching lines of one file, numbered from 1. -/
def fileHits (pattern : List Char) (f : String × List (List Char)) : List Hit :=
  fileHitsFrom pattern f.1 f.2 1

/-- Every hit of every scanned file, in traversal order. -/
def allHits (pattern : List Char) (files : List (String × List (List Char))) :
    List Hit :=
  (files.map (fileHits pattern)).flatten

/-- Inner loop of `_with_py` over one file's lines: appends each match to the
shared `hits` accumulator and early-returns (flag `true`) once
`limit and len(hits) >= limit`. -/
def scanFile (pattern : List Char) (path : String) (limit : Nat) :
    List (List Char) → Nat → List Hit → List Hit × Bool
  | [], _, hits => (hits, false)
  | line :: rest, i, hits =>
    if containsPat pattern line then
      let hits2 := hits ++ [⟨path, i, rstripNl line⟩]
      if limit ≠ 0 ∧ limit ≤ hits2.length then (hits2, true)
      else scanFile pattern path limit rest (i + 1) hits2
    else scanFile pattern path limit rest (i + 1) hits

/-- Outer loop of `_with_py` over the scanned files. -/
def pyGo (pattern : List Char) (limit : Nat) :
    List (String × List (List Char)) → List Hit → List Hit
  | [], hits => hits
  | f :: fs, hits =>
    let r := scanFile pattern f.1 limit f.2 1 hits
    if r.2 then r.1 else pyGo pattern limit fs r.1

/-- `_with_py(pattern, roots, limit)`: plain recursive scan, substring
matching, collecting up to `limit` hits in total (`limit = 0` means
unlimited). -/
def _with_py (pattern : List Char) (files : List (String × List (List Char)))
    (limit : Nat) : List Hit :=
  pyGo pattern limit files []

/-- `_with_rg(pattern, roots, limit)`: the ripgrep backend.  ripgrep is
invoked with `--max-count limit`, so it emits at most `limit` matches per
file (none for `--max-count 0`); the Python loop over the emitted match
events then stops as soon as `limit` hits are collected (`limit = 0`
collects every event). -/
def _with_rg (pattern : List Char) (files : List (String × List (List Char)))
    (limit : Nat) : List Hit :=
  let events := (files.map (fun f => (fileHits pattern f).take limit)).flatten
  if limit = 0 then events else events.take limit

/-- `search_code(pattern, path)`: dispatches on ripgrep availability and
always passes a result limit of `1`. -/
def search_code (hasRg : Bool) (pattern : List Char)
    (files : List (String × List (List Char))) : List Hit :=
  (if hasRg then _with_rg else _with_py) pattern files 1

/-- A scanned tree with three files containing "TODO" on lines 3, 10 and 1
respectively (the scenario of the specification). -/
def todoTree : List (String × List (List Char)) :=
  [("src/f1", ["aa\n".toList, "bb\n".toList, "xTODOx\n".toList]),
   ("src/f2", ["1\n".toList, "2\n".toList, "3\n".toList, "4\n".toList,
               "5\n".toList, "6\n".toList, "7\n".toList, "8\n".toList,
               "9\n".toList, "TODO ten\n".toList]),
   ("src/f3", ["TODO one\n".toList, "zz\n".toList])]

/-! ### Test executor (`run_tests` in tools.py)

The subprocess invocation of pytest is abstracted as the pair of raw data it
yields — `proc.returncode` and the combined output `proc.stdout +
proc.stderr` — and everything `run_tests` computes from that pair is
embedded. -/

/-- One scan position of `re.search(r"(\d+)\s+<kw>", out)`: a maximal run of
digits, then a maximal run of whitespace, then the literal keyword.  The
digit and whitespace classes are disjoint and neither contains the
keyword's first letter, so greedy matching needs no backtracking at this
position; `\d` and `\s` are modelled over the character ranges pytest
output uses. -/
def tryMatchAt (kw : List Char) (l : List Char) : Option Nat :=
  let ds := l.takeWhile Char.isDigit
  if ds.isEmpty then none
  else
    let rest := l.drop ds.length
    let ws := rest.takeWhile Char.isWhitespace
    if ws.isEmpty then none
    else if kw.isPrefixOf (rest.drop ws.length) then
      some (ds.foldl (fun n c => 10 * n + (c.toNat - '0'.toNat)) 0)
    else none

/-- `re.search(r"(\d+)\s+<kw>", out)`: the captured count of the leftmost
match, scanning start positions left to right. -/
def findCount (kw : List Char) : List Char → Option Nat
  | [] => none
  | c :: rest =>
    match tryMatchAt kw (c :: rest) with
    | some n => some n
    | none => findCount kw rest

/-- The truncation marker `"\n…(truncated)…\n"` inserted into over-long
logs. -/
def truncMarker : List Char :=
  ['\n', '…', '(', 't', 'r', 'u', 'n', 'c', 'a', 't', 'e', 'd', ')', '…', '\n']

/-- The summary dict returned by `run_tests`. -/
structure TestResult where
  exit_code : Int
  passed : Nat
  failed : Nat
  log : List Char
deriving DecidableEq

/-- `run_tests(repo_path, paths, python_exe)` after its subprocess call, as
a function of the raw subprocess result: parses the passed/failed counts
with `re.search`, defaulting each to 0 when its pattern is absent, and
truncates a log longer than 20000 characters to a 10000-character head,
the marker, and a 10000-character tail. -/
def run_tests (exit_code : Int) (out : List Char) : TestResult :=
  let passed := (findCount "passed".toList out).getD 0
  let failed := (findCount "failed".toList out).getD 0
  let max_output : Nat := 20000
  let log :=
    if max_output < out.length then
      out.take (max_output / 2) ++ truncMarker ++
        out.drop (out.length - max_output / 2)
    else out
  ⟨exit_code, passed, failed, log⟩

/-! ### Patch applier (`apply_patch`, `_count_changed_lines` in tools.py)

The working tree is an association list from file path to file contents.
`difflib.unified_diff` is a standard-library call; the diff text it
produces is abstracted as a function argument `udiff` of the old and new
line lists (the header arguments `fromfile`/`tofile`/`lineterm` are fixed
at the call site and absorbed into it). -/

/-- A working tree: file path to contents. -/
abbrev Fs := List (String × List Char)

/-- The dict returned by a successful `apply_patch`. -/
structure PatchResult where
  file : String
  line_number : Int
  diff : List Char
deriving DecidableEq

/-- `path.write_text(...)` for a path present in the tree. -/
def fsWrite (fs : Fs) (p : String) (c : List Char) : Fs :=
  fs.map (fun e => if e.1 = p then (p, c) else e)

/-- `apply_patch(patch_text, file_path, line_number)` over a working tree
`fs`: raises (`Except.error`) before any write when the file is missing or
the 1-based line number is out of range; otherwise normalizes the patch
text to end with a newline (appending one only when absent), splices its
lines in place of the addressed line, computes the unified diff of old
versus new lines, and writes the new contents. -/
def apply_patch (udiff : List (List Char) → List (List Char) → List Char)
    (fs : Fs) (patch_text : List Char) (file_path : String)
    (line_number : Int) : Except String PatchResult × Fs :=
  match fs.lookup file_path with
  | none => (Except.error ("No such file: " ++ file_path), fs)
  | some content =>
    let original_lines := splitlinesKeep content
    let idx : Int := line_number - 1
    if 0 ≤ idx ∧ idx < (original_lines.length : Int) then
      let txt := if patch_text.getLast? = some '\n' then patch_text
                 else patch_text ++ ['\n']
      let patch_lines := splitlinesKeep txt
      let new_lines := original_lines.take idx.toNat ++ patch_lines ++
        original_lines.drop (idx.toNat + 1)
      (Except.ok ⟨file_path, line_number, udiff original_lines new_lines⟩,
        fsWrite fs file_path new_lines.flatten)
    else (Except.error "line_number out of range", fs)

/-- A unified diff of lines lists, used where a concrete diff function is
needed in closed statements. -/
def udiffNull : List (List Char) → List (List Char) → List Char :=
  fun _ _ => []

/-- `_count_changed_lines(diff)`: `(#added, #deleted)` content lines of a
unified diff — lines starting with `+` (resp. `-`) excluding the `+++`
(resp. `---`) file headers. -/
def _count_changed_lines (diff : List Char) : Nat × Nat :=
  (((splitlines diff).filter
      (fun ln => ln.take 1 == ['+'] && !(ln.take 3 == ['+', '+', '+']))).length,
   ((splitlines diff).filter
      (fun ln => ln.take 1 == ['-'] && !(ln.take 3 == ['-', '-', '-']))).length)

/-- The result of a strict-mode apply. -/
structure StrictApplyResult where
  applied : Bool
  message : String
deriving DecidableEq

/-- Modelled from the spec: the strict diff mode of the patch applier
(spec §4.3), which accepts a full unified-diff text and enforces a
change-size budget, is absent from src/ — the sources contain only its
change-counting helper `_count_changed_lines`, which this definition uses.
Per the spec, the mode rejects — `applied=false`, no filesystem mutation —
any diff whose added-plus-deleted content-line count exceeds the configured
limit (default 1), and otherwise applies the diff to the tree (the apply
step itself, `applyDiff`, is left abstract). -/
def apply_diff_strict (applyDiff : Fs → Fs) (limit : Nat) (diff : List Char)
    (fs : Fs) : StrictApplyResult × Fs :=
  let counts := _count_changed_lines diff
  if limit < counts.1 + counts.2 then
    (⟨false, "change-size budget exceeded"⟩, fs)
  else (⟨true, "applied"⟩, applyDiff fs)

/-! ### Workspace manager (`prepare_repo` in tools.py)

The destination directory `workspace_root/<slug>/src` is modelled by the
state of the git repository inside it; each git subcommand is given its
documented effect and failure condition.  `prepare_repo` runs the commands
with `check=True`, so the first failing command raises `CalledProcessError`
and aborts the call. -/

/-- The observable git state of the destination directory. -/
structure RepoDir where
  gitInitDone : Bool
  remotes : List (String × String)
  fetchHead : Option String
  headRev : Option String
deriving DecidableEq

/-- A destination directory with no git repository provisioned yet. -/
def freshRepoDir : RepoDir := ⟨false, [], none, none⟩

/-- Model of `git init`: succeeds whether or not the directory already
holds a repository (re-running prints "Reinitialized existing Git
repository" and exits 0). -/
def gitInit (s : RepoDir) : RepoDir := { s with gitInitDone := true }

/-- Model of `git remote add <name> <url>`: exits non-zero when a remote of
that name already exists. -/
def gitRemoteAdd (s : RepoDir) (name url : String) : Except String RepoDir :=
  if (s.remotes.lookup name).isSome then
    Except.error ("error: remote " ++ name ++ " already exists.")
  else Except.ok { s with remotes := s.remotes ++ [(name, url)] }

/-- Model of `git fetch --depth 1 <remote> <commit>` under network success:
requires the named remote and records the fetched commit as `FETCH_HEAD`. -/
def gitFetch (s : RepoDir) (name commit : String) : Except String RepoDir :=
  match s.remotes.lookup name with
  | none => Except.error ("fatal: no such remote: " ++ name)
  | some _ => Except.ok { s with fetchHead := some commit }

/-- Model of `git checkout --quiet FETCH_HEAD`. -/
def gitCheckoutFetchHead (s : RepoDir) : Except String RepoDir :=
  match s.fetchHead with
  | none => Except.error "fatal: FETCH_HEAD not found"
  | some c => Except.ok { s with headRev := some c }

/-- `prepare_repo(repo_slug, commit, workspace_root)` acting on the state of
its destination directory: `mkdir(parents=True, exist_ok=True)` (a no-op on
an existing directory), then `git init`, `git remote add origin <url>`,
`git fetch --depth 1 origin <commit>`, `git checkout --quiet FETCH_HEAD`,
each with `check=True`.  The venv provisioning of `setup_env` is reached
only when every git command succeeded and reuses an existing venv keyed by
the repository slug. -/
def prepare_repo (s : RepoDir) (repo_slug commit : String) :
    Except String RepoDir := do
  let s := gitInit s
  let s ← gitRemoteAdd s "origin"
    ("https://github.com/" ++ repo_slug ++ ".git")
  let s ← gitFetch s "origin" commit
  let s ← gitCheckoutFetchHead s
  Except.ok s

end AgentTools

namespace AgentTools

/-! ### Search-engine lemmas -/

/-- Closed form of the inner loop of `_with_py`: starting below the limit, it
returns every match of the file appended to the accumulator, cut off at
`limit` with the early-return flag set when the limit is reached. -/
theorem scanFile_eq (pattern : List Char) (path : String) (limit : Nat)
    (hl : limit ≠ 0) (lines : List (List Char)) :
    ∀ (i : Nat) (hits : List Hit), hits.length < limit →
      scanFile pattern path limit lines i hits =
        if limit ≤ (hits ++ fileHitsFrom pattern path lines i).length
        then ((hits ++ fileHitsFrom pattern path lines i).take limit, true)
        else (hits ++ fileHitsFrom pattern path lines i, false) := by
  induction lines with
  | nil =>
    intro i hits hlen
    have h1 : ¬ limit ≤ hits.length := by omega
    simp [scanFile, fileHitsFrom, h1]
  | cons line rest ih =>
    intro i hits hlen
    by_cases hm : containsPat pattern line = true
    · by_cases hstop : limit ≤ hits.length + 1
      · have hlim : limit = hits.length + 1 := by omega
        have hcond : limit ≤
            (hits ++ fileHitsFrom pattern path (line :: rest) i).length := by
          simp [fileHitsFrom, hm]; omega
        rw [if_pos hcond]
        have htake :
            (hits ++ fileHitsFrom pattern path (line :: rest) i).take limit =
              hits ++ [(⟨path, i, rstripNl line⟩ : Hit)] := by
          have : hits ++ fileHitsFrom pattern path (line :: rest) i =
              (hits ++ [(⟨path, i, rstripNl line⟩ : Hit)]) ++
                fileHitsFrom pattern path rest (i + 1) := by
            simp [fileHitsFrom, hm]
          rw [this, List.take_append_of_le_length (by simp; omega),
            List.take_of_length_le (by simp; omega)]
        rw [htake]
        simp only [scanFile, hm, if_true]
        rw [if_pos ⟨hl, by simp; omega⟩]
      · have hlen2 : (hits ++ [(⟨path, i, rstripNl line⟩ : Hit)]).length < limit := by
          simp; omega
        have hrec := ih (i + 1) (hits ++ [(⟨path, i, rstripNl line⟩ : Hit)]) hlen2
        simp only [scanFile, hm, if_true]
        rw [if_neg (by simp; omega : ¬ (limit ≠ 0 ∧ limit ≤
          (hits ++ [(⟨path, i, rstripNl line⟩ : Hit)]).length))]
        rw [hrec]
        simp [fileHitsFrom, hm, List.append_assoc]
    · have hm' : containsPat pattern line = false := by
        simpa using hm
      have hrec := ih (i + 1) hits hlen
      simp only [scanFile, hm', Bool.false_eq_true, if_false]
      rw [hrec]
      simp [fileHitsFrom, hm']

/-- Closed form of the outer loop of `_with_py`. -/
theorem pyGo_eq (pattern : List Char) (limit : Nat) (hl : limit ≠ 0) :
    ∀ (files : List (String × List (List Char))) (hits : List Hit),
      hits.length < limit →
      pyGo pattern limit files hits = (hits ++ allHits pattern files).take limit := by
  intro files
  induction files with
  | nil =>
    intro hits hlen
    simp [pyGo, allHits, List.take_of_length_le (Nat.le_of_lt hlen)]
  | cons f fs ih =>
    intro hits hlen
    rw [pyGo, scanFile_eq pattern f.1 limit hl f.2 1 hits hlen]
    by_cases hc : limit ≤ (hits ++ fileHitsFrom pattern f.1 f.2 1).length
    · simp only [if_pos hc]
      rw [allHits, List.map_cons, List.flatten_cons, ← List.append_assoc,
        List.take_append_of_le_length
          (show limit ≤ (hits ++ fileHits pattern f).length from hc)]
      simp [fileHits]
    · simp only [if_neg hc, Bool.false_eq_true, if_false]
      rw [ih _ (by omega)]
      simp [allHits, fileHits, List.append_assoc]

/-- `_with_py` with a non-zero limit returns the first `limit` hits of the
traversal. -/
theorem _with_py_eq (pattern : List Char)
    (files : List (String × List (List Char))) (limit : Nat) (hl : limit ≠ 0) :
    _with_py pattern files limit = (allHits pattern files).take limit := by
  have h0 : ([] : List Hit).length < limit := by
    simp; omega
  simpa using pyGo_eq pattern limit hl files [] h0

/-- Cutting each block of a flattened list at `n` does not change the first
`m ≤ n` elements of the flattening. -/
theorem take_flatten_map_take {α : Type} (xss : List (List α)) :
    ∀ (m n : Nat), m ≤ n →
      ((xss.map (List.take n)).flatten).take m = xss.flatten.take m := by
  induction xss with
  | nil => intro m n _; rfl
  | cons xs rest ih =>
    intro m n hmn
    simp only [List.map_cons, List.flatten_cons, List.take_append_eq_append_take,
      List.take_take, List.length_take]
    have hmin : min m n = m := Nat.min_eq_left hmn
    rw [hmin]
    rcases le_or_lt xs.length n with hle | hlt
    · rw [Nat.min_eq_right hle, ih _ n (by omega)]
    · have h1 : m - min n xs.length = 0 := by omega
      have h2 : m - xs.length = 0 := by omega
      rw [Nat.min_comm, Nat.min_eq_right (Nat.le_of_lt hlt)] at h1 ⊢
      rw [h1, h2]
      simp

/-- `_with_rg` with a non-zero limit returns the first `limit` hits of the
traversal. -/
theorem _with_rg_eq (pattern : List Char)
    (files : List (String × List (List Char))) (limit : Nat) (hl : limit ≠ 0) :
    _with_rg pattern files limit = (allHits pattern files).take limit := by
  rw [_with_rg, if_neg hl]
  have hmap : files.map (fun f => (fileHits pattern f).take limit) =
      (files.map (fileHits pattern)).map (List.take limit) := by
    rw [List.map_map]; rfl
  rw [hmap, take_flatten_map_take _ limit limit (Nat.le_refl limit)]
  rfl

/-- Both backends, hence `search_code`, return the first hit of the
traversal. -/
theorem search_code_eq (hasRg : Bool) (pattern : List Char)
    (files : List (String × List (List Char))) :
    search_code hasRg pattern files = (allHits pattern files).take 1 := by
  cases hasRg
  · simpa [search_code] using _with_py_eq pattern files 1 (by decide)
  · simpa [search_code] using _with_rg_eq pattern files 1 (by decide)

/-- C1 (counterexample): over a tree with three files containing "TODO" on
lines 3, 10 and 1 respectively, `search_code` returns a single hit — the
first matching line of the first scanned file — not three hits (one per
file), with either backend. -/
theorem search_code_three_files_cex :
    (search_code true "TODO".toList todoTree).length = 1 ∧
    (search_code false "TODO".toList todoTree).length = 1 ∧
    ¬ (search_code true "TODO".toList todoTree).length = 3 ∧
    ¬ (search_code false "TODO".toList todoTree).length = 3 ∧
    search_code true "TODO".toList todoTree =
      [⟨"src/f1", 3, "xTODOx".toList⟩] ∧
    search_code false "TODO".toList todoTree =
      [⟨"src/f1", 3, "xTODOx".toList⟩] := by
  decide

/-- C1 (amended): for every pattern and scanned-file enumeration,
`search_code` returns at most one hit in total, namely the first matching
line of the first scanned file that contains the pattern (the head of the
match-traversal stream), with either backend. -/
theorem search_code_single_first_hit (hasRg : Bool) (pattern : List Char)
    (files : List (String × List (List Char))) :
    search_code hasRg pattern files = (allHits pattern files).head?.toList := by
  rw [search_code_eq]
  cases allHits pattern files <;> rfl

/-- C9: for every pattern and scanned-file enumeration, `search_code`
returns a list with at most one hit in total, regardless of backend and of
how many files contain the pattern. -/
theorem search_code_at_most_one (hasRg : Bool) (pattern : List Char)
    (files : List (String × List (List Char))) :
    (search_code hasRg pattern files).length ≤ 1 := by
  rw [search_code_eq]
  calc ((allHits pattern files).take 1).length ≤ 1 := by
        rw [List.length_take]; omega

/-- C5 (counterexample): because each call returns at most one hit overall,
two backends that traverse the same two matching files in opposite orders
return singleton hit lists for different files: the hit sets differ, which
is more than a reordering. -/
theorem backends_order_cex :
    List.Perm [("a", [['p', '\n']]), ("b", [['p', '\n']])]
      [("b", [['p', '\n']]), ("a", [['p', '\n']])] ∧
    _with_py ['p'] [("a", [['p', '\n']]), ("b", [['p', '\n']])] 1 =
      [⟨"a", 1, ['p']⟩] ∧
    _with_rg ['p'] [("b", [['p', '\n']]), ("a", [['p', '\n']])] 1 =
      [⟨"b", 1, ['p']⟩] ∧
    ¬ (∀ h ∈ _with_py ['p'] [("a", [['p', '\n']]), ("b", [['p', '\n']])] 1,
        h ∈ _with_rg ['p'] [("b", [['p', '\n']]), ("a", [['p', '\n']])] 1) := by
  decide

/-- C5 (amended): over the same scanned-file enumeration (same files in the
same order, with ripgrep's matching modelled literally), the indexed
backend and the plain recursive-scan fallback return identical hit lists
— same shape and same first-matching-line semantics — for every non-zero
result limit, in particular for the limit 1 used by `search_code`; the hit
a call returns may still differ between backends when their traversal
orders differ, since only the first hit of the traversal is kept. -/
theorem backends_agree_same_traversal (pattern : List Char)
    (files : List (String × List (List Char))) (limit : Nat)
    (hl : limit ≠ 0) :
    _with_rg pattern files limit = _with_py pattern files limit := by
  rw [_with_rg_eq pattern files limit hl, _with_py_eq pattern files limit hl]

/-- Witness for the C5 theorem at a concrete traversal and limit. -/
theorem backends_agree_same_traversal_witness :
    _with_rg "p".toList [("a", [['p', '\n']]), ("b", [['q', '\n']])] 1 =
      _with_py "p".toList [("a", [['p', '\n']]), ("b", [['q', '\n']])] 1 :=
  backends_agree_same_traversal "p".toList
    [("a", [['p', '\n']]), ("b", [['q', '\n']])] 1 (by decide)

/-! ### Patch-applier lemmas -/

/-- `splitKeepGo` accumulates a character that is not a line break. -/
theorem splitKeepGo_cons_of_not_break (c : Char) (rest acc : List Char)
    (h : isLineBreak c = false) :
    splitKeepGo (c :: rest) acc false = splitKeepGo rest (c :: acc) false := by
  have hc : ¬ (c = '\r') := by
    intro e; subst e; simp [isLineBreak] at h
  rw [splitKeepGo, if_neg (by decide : ¬ (false = true)), if_neg hc,
    if_neg (by simp [h])]

/-- `splitKeepGo` closes the current line at a `'\n'`. -/
theorem splitKeepGo_newline (rest acc : List Char) :
    splitKeepGo ('\n' :: rest) acc false =
      (acc.reverse ++ ['\n']) :: splitKeepGo rest [] false := by
  rw [splitKeepGo, if_neg (by decide : ¬ (false = true)),
    if_neg (by decide : ¬ ('\n' = '\r')), if_pos (by decide)]

/-- A text with no line-break character followed by a final `'\n'` is a
single keepends line. -/
theorem splitKeepGo_singleline (t : List Char)
    (h : ∀ c ∈ t, isLineBreak c = false) :
    ∀ acc, splitKeepGo (t ++ ['\n']) acc false =
      [acc.reverse ++ t ++ ['\n']] := by
  induction t with
  | nil =>
    intro acc
    rw [List.nil_append, splitKeepGo_newline]
    simp [splitKeepGo]
  | cons x t' ih =>
    intro acc
    have hx : isLineBreak x = false := h x (by simp)
    rw [List.cons_append, splitKeepGo_cons_of_not_break x _ acc hx,
      ih (fun c hc => h c (by simp [hc])) (x :: acc)]
    simp

/-- `splitlines(keepends=True)` of a newline-free text plus a final newline
is that single line. -/
theorem splitlinesKeep_singleline (t : List Char)
    (h : ∀ c ∈ t, isLineBreak c = false) :
    splitlinesKeep (t ++ ['\n']) = [t ++ ['\n']] := by
  rw [splitlinesKeep, splitKeepGo_singleline t h []]
  simp

/-- Writing a present path stores the new contents under that path. -/
theorem lookup_fsWrite_self (fs : Fs) (p : String) (c : List Char)
    (h : (fs.lookup p).isSome = true) :
    (fsWrite fs p c).lookup p = some c := by
  induction fs with
  | nil => simp [List.lookup] at h
  | cons e es ih =>
    rcases e with ⟨k, v⟩
    by_cases he : k = p
    · subst he
      simp [fsWrite, List.lookup_cons]
    · have hpk : ¬ (p = k) := fun hpk => he hpk.symm
      have hb : (p == k) = false := by simpa using hpk
      simp only [fsWrite, List.map_cons, if_neg he]
      simp only [List.lookup_cons, hb]
      apply ih
      simp only [List.lookup_cons, hb] at h
      exact h

/-- Writing one path leaves the lookup of every other path unchanged. -/
theorem lookup_fsWrite_ne (fs : Fs) (p : String) (c : List Char) (q : String)
    (h : ¬ (q = p)) : (fsWrite fs p c).lookup q = fs.lookup q := by
  induction fs with
  | nil => rfl
  | cons e es ih =>
    rcases e with ⟨k, v⟩
    by_cases he : k = p
    · subst he
      have hb : (q == k) = false := by simpa using h
      simpa [fsWrite, List.lookup_cons, hb] using ih
    · simp only [fsWrite, List.map_cons, if_neg he]
      simp only [List.lookup_cons]
      cases hqk : (q == k)
      · exact ih
      · rfl

/-- C4: every failed `apply_patch` call — the file does not exist, or the
1-based line number is outside `[1, lineCount]` — leaves the contents of
every file of the working tree exactly as they were before the call: the
exception is raised before any write. -/
theorem apply_patch_failure_preserves_tree
    (udiff : List (List Char) → List (List Char) → List Char) (fs : Fs)
    (patch_text : List Char) (file_path : String) (line_number : Int)
    (h : (apply_patch udiff fs patch_text file_path line_number).1.isOk = false) :
    (apply_patch udiff fs patch_text file_path line_number).2 = fs := by
  rcases hl : fs.lookup file_path with _ | content
  · simp [apply_patch, hl]
  · by_cases hb : (0 ≤ line_number - 1 ∧
        line_number - 1 < ((splitlinesKeep content).length : Int))
    · exfalso
      simp only [apply_patch, hl] at h
      rw [if_pos hb] at h
      simp [Except.isOk, Except.toBool] at h
    · simp only [apply_patch, hl]
      rw [if_neg hb]

/-- Witness for the C4 theorem: a call on a missing file fails and returns
the tree unchanged. -/
theorem apply_patch_failure_preserves_tree_witness :
    (apply_patch udiffNull [("f", ['a', '\n'])] ['z'] "g" 1).2 =
      [("f", ['a', '\n'])] :=
  apply_patch_failure_preserves_tree udiffNull [("f", ['a', '\n'])] ['z'] "g" 1
    (by decide)

/-- C3 (counterexample): `apply_patch` does not normalize the replacement
text to a single trailing newline, and the result is not always the
single-line substitution: replacing line 1 of "a\nb\n" with the text
"x\n\n" leaves the file as "x\n\nb\n" — the already-present trailing
newlines are kept, inserting an extra blank line — whereas the claimed
substitution of line 1 by the text normalized to one trailing newline
would give "x\nb\n". -/
theorem apply_patch_trailing_newline_cex :
    (apply_patch udiffNull [("f", "a\nb\n".toList)] "x\n\n".toList "f" 1).2 =
      [("f", "x\n\nb\n".toList)] ∧
    ¬ ("x\n\nb\n".toList = "x\nb\n".toList) := by decide

/-- C3 (amended): for every existing file and 1-based line number within
range, `apply_patch` replaces exactly the addressed line with the lines of
the patch text normalized to end with a trailing newline (a newline is
appended only when absent; existing trailing or embedded newlines are
kept, so the inserted text may span several lines), leaves every line
before and after the addressed one and every other file unchanged, and
returns the unified diff of the old versus new line lists; when the patch
text contains no line-break character, the normalized text is exactly the
patch text plus one newline, so the edit is precisely the claimed
single-line substitution. -/
theorem apply_patch_applies_line_edit
    (udiff : List (List Char) → List (List Char) → List Char) (fs : Fs)
    (patch_text : List Char) (file_path : String) (k : Nat)
    (content : List Char) (hfs : fs.lookup file_path = some content)
    (hk1 : 1 ≤ k) (hk2 : k ≤ (splitlinesKeep content).length) :
    (apply_patch udiff fs patch_text file_path (k : Int)).1 =
      Except.ok ⟨file_path, (k : Int),
        udiff (splitlinesKeep content)
          ((splitlinesKeep content).take (k - 1) ++
            splitlinesKeep (if patch_text.getLast? = some '\n' then patch_text
              else patch_text ++ ['\n']) ++
            (splitlinesKeep content).drop k)⟩ ∧
    (apply_patch udiff fs patch_text file_path (k : Int)).2.lookup file_path =
      some ((splitlinesKeep content).take (k - 1) ++
        splitlinesKeep (if patch_text.getLast? = some '\n' then patch_text
          else patch_text ++ ['\n']) ++
        (splitlinesKeep content).drop k).flatten ∧
    (∀ q, ¬ (q = file_path) →
      (apply_patch udiff fs patch_text file_path (k : Int)).2.lookup q =
        fs.lookup q) ∧
    ((∀ c ∈ patch_text, isLineBreak c = false) →
      splitlinesKeep (if patch_text.getLast? = some '\n' then patch_text
        else patch_text ++ ['\n']) = [patch_text ++ ['\n']]) := by
  have hb : 0 ≤ (k : Int) - 1 ∧
      (k : Int) - 1 < ((splitlinesKeep content).length : Int) := by
    constructor <;> omega
  have htn : ((k : Int) - 1).toNat = k - 1 := by omega
  have hk' : k - 1 + 1 = k := Nat.sub_add_cancel hk1
  have happ : apply_patch udiff fs patch_text file_path (k : Int) =
      (Except.ok ⟨file_path, (k : Int),
        udiff (splitlinesKeep content)
          ((splitlinesKeep content).take (k - 1) ++
            splitlinesKeep (if patch_text.getLast? = some '\n' then patch_text
              else patch_text ++ ['\n']) ++
            (splitlinesKeep content).drop k)⟩,
       fsWrite fs file_path
         ((splitlinesKeep content).take (k - 1) ++
           splitlinesKeep (if patch_text.getLast? = some '\n' then patch_text
             else patch_text ++ ['\n']) ++
           (splitlinesKeep content).drop k).flatten) := by
    simp only [apply_patch, hfs]
    rw [if_pos hb, htn, hk']
  refine ⟨?_, ?_, ?_, ?_⟩
  · rw [happ]
  · rw [happ]
    exact lookup_fsWrite_self fs file_path _ (by rw [hfs]; rfl)
  · intro q hq
    rw [happ]
    exact lookup_fsWrite_ne fs file_path _ q hq
  · intro hnb
    have hlast : ¬ (patch_text.getLast? = some '\n') := by
      intro hg
      have hmem : '\n' ∈ patch_text := by
        have hg' : '\n' ∈ patch_text.getLast? := by
          rw [Option.mem_def]; exact hg
        rcases List.mem_getLast?_eq_getLast hg' with ⟨hne, heq⟩
        rw [heq]
        exact List.getLast_mem hne
      have := hnb '\n' hmem
      simp [isLineBreak] at this
    rw [if_neg hlast]
    exact splitlinesKeep_singleline patch_text hnb

/-- Witness for the C3 theorem: replacing line 1 of the one-line file
"a\n" with "z" yields the file "z\n". -/
theorem apply_patch_applies_line_edit_witness :
    (apply_patch udiffNull [("g", ['a', '\n'])] ['z'] "g" 1).2.lookup "g" =
      some ['z', '\n'] := by
  have h := apply_patch_applies_line_edit udiffNull [("g", ['a', '\n'])]
    ['z'] "g" 1 ['a', '\n'] (by decide) (by decide) (by decide)
  exact h.2.1.trans (by decide)

/-- C2: in strict diff mode, every unified diff whose added-plus-deleted
content-line count exceeds the configured limit is rejected: the call
returns `applied = false` and performs no mutation of the working tree,
for every limit and every underlying apply step. -/
theorem strict_mode_rejects_over_budget (applyDiff : Fs → Fs) (limit : Nat)
    (diff : List Char) (fs : Fs)
    (h : limit <
      (_count_changed_lines diff).1 + (_count_changed_lines diff).2) :
    (apply_diff_strict applyDiff limit diff fs).1.applied = false ∧
    (apply_diff_strict applyDiff limit diff fs).2 = fs := by
  constructor <;> simp [apply_diff_strict, h]

/-- Witness for the C2 theorem: a one-hunk diff with one deleted and two
added lines exceeds the default limit 1 and is rejected without mutation. -/
theorem strict_mode_rejects_over_budget_witness :
    1 < (_count_changed_lines
        "--- a\n+++ a\n@@ -1 +1,2 @@\n-x\n+y\n+z\n".toList).1 +
      (_count_changed_lines
        "--- a\n+++ a\n@@ -1 +1,2 @@\n-x\n+y\n+z\n".toList).2 ∧
    (apply_diff_strict id 1
        "--- a\n+++ a\n@@ -1 +1,2 @@\n-x\n+y\n+z\n".toList
        [("f", ['a'])]).1.applied = false ∧
    (apply_diff_strict id 1
        "--- a\n+++ a\n@@ -1 +1,2 @@\n-x\n+y\n+z\n".toList
        [("f", ['a'])]).2 = [("f", ['a'])] :=
  ⟨by decide, strict_mode_rejects_over_budget id 1
    "--- a\n+++ a\n@@ -1 +1,2 @@\n-x\n+y\n+z\n".toList
    [("f", ['a'])] (by decide)⟩

/-! ### Workspace-manager claim -/

/-- C6 (code refutation): provisioning is not idempotent per (repository
slug, revision, destination): after a first successful `prepare_repo`, a
second call with the same slug, revision and workspace root aborts —
`git remote add origin` exits non-zero because the remote already exists
in the destination's repository and `check=True` turns that into a raised
`CalledProcessError` — instead of succeeding with the checkout as a
no-op. -/
theorem prepare_repo_second_call_fails :
    prepare_repo freshRepoDir "psf/requests" "abc123" =
      Except.ok ⟨true, [("origin", "https://github.com/psf/requests.git")],
        some "abc123", some "abc123"⟩ ∧
    prepare_repo
        ⟨true, [("origin", "https://github.com/psf/requests.git")],
          some "abc123", some "abc123"⟩ "psf/requests" "abc123" =
      Except.error "error: remote origin already exists." :=
  ⟨rfl, rfl⟩

/-! ### Test-executor lemmas -/

/-- A `takeWhile` prefix never exceeds the list's length. -/
theorem takeWhile_length_le {α : Type} (p : α → Bool) (l : List α) :
    (l.takeWhile p).length ≤ l.length := by
  induction l with
  | nil => simp
  | cons x l' ih =>
    rw [List.takeWhile_cons]
    cases hpx : p x
    · simp
    · simp only [if_true, List.length_cons]
      simpa using ih

/-- `takeWhile` stops at the first failing element, whatever follows. -/
theorem takeWhile_append_of_not {α : Type} (p : α → Bool) (c : α)
    (h : p c = false) (u v : List α) :
    (u ++ c :: v).takeWhile p = u.takeWhile p := by
  induction u with
  | nil => simp [List.takeWhile_cons, h]
  | cons x u' ih =>
    rw [List.cons_append, List.takeWhile_cons, List.takeWhile_cons]
    cases hpx : p x <;> simp [ih]

/-- Truncating a list beyond its `takeWhile` prefix keeps that prefix. -/
theorem takeWhile_take_of_le {α : Type} (p : α → Bool) :
    ∀ (l : List α) (n : Nat), (l.takeWhile p).length ≤ n →
      (l.take n).takeWhile p = l.takeWhile p := by
  intro l
  induction l with
  | nil => intro n _; simp
  | cons x l' ih =>
    intro n h
    cases hpx : p x
    · cases n with
      | zero => simp [List.takeWhile_cons, hpx]
      | succ m => simp [List.takeWhile_cons, hpx]
    · rw [List.takeWhile_cons, hpx] at h
      simp only [if_true] at h
      cases n with
      | zero => simp at h
      | succ m =>
        rw [List.take_succ_cons, List.takeWhile_cons, List.takeWhile_cons, hpx]
        simp only [if_true]
        rw [ih m (by simp at h; omega)]

/-- The last line of an appended text whose left part ends with a newline
is the last line of the right part. -/
theorem lastLine_append_of_getLast (ys zs : List Char)
    (h : ys.getLast? = some '\n') :
    lastLine (ys ++ zs) = lastLine zs := by
  have h1 : ys.reverse.head? = some '\n' := by
    rw [List.head?_reverse]; exact h
  rcases hr : ys.reverse with _ | ⟨y, yr⟩
  · rw [hr] at h1; simp at h1
  · rw [hr] at h1
    simp only [List.head?_cons, Option.some.injEq] at h1
    subst h1
    rw [lastLine, lastLine, List.reverse_append, hr,
      takeWhile_append_of_not _ '\n' (by decide) zs.reverse yr]

/-- Dropping a prefix of the text that leaves at least the final line
intact does not change the final line. -/
theorem lastLine_drop_suffix (out : List Char) (n : Nat)
    (h : (lastLine out).length ≤ n) :
    lastLine (out.drop (out.length - n)) = lastLine out := by
  have hlen : (List.takeWhile (fun c => c ≠ '\n') out.reverse).length ≤ n := by
    calc (List.takeWhile (fun c => c ≠ '\n') out.reverse).length
        = (lastLine out).length := by rw [lastLine, List.length_reverse]
      _ ≤ n := h
  have hle : (List.takeWhile (fun c => c ≠ '\n') out.reverse).length ≤
      out.length - (out.length - n) := by
    have h2 := takeWhile_length_le (fun c => c ≠ '\n') out.reverse
    rw [List.length_reverse] at h2
    omega
  rw [lastLine, lastLine, List.reverse_drop,
    takeWhile_take_of_le _ _ _ hle]

/-- The head-plus-marker segment of a truncated log ends with a newline. -/
theorem head_marker_getLast (u : List Char) :
    (u ++ truncMarker).getLast? = some '\n' := by
  rw [show u ++ truncMarker =
      (u ++ ['\n', '…', '(', 't', 'r', 'u', 'n', 'c', 'a', 't', 'e', 'd',
        ')', '…']) ++ ['\n'] from by simp [truncMarker]]
  exact List.getLast?_concat _

/-- A replicate of a non-newline character is its own last line. -/
theorem lastLine_replicate (n : Nat) :
    lastLine (List.replicate n 'a') = List.replicate n 'a' := by
  rw [lastLine, List.reverse_replicate]
  have htw : List.takeWhile (fun c => c ≠ '\n') (List.replicate n 'a') =
      List.replicate n 'a' := by
    induction n with
    | zero => simp
    | succ m ih => rw [List.replicate_succ, List.takeWhile_cons]; simp [ih]
  rw [htw, List.reverse_replicate]

/-- C10: the log field returned by `run_tests` is at most 20000 characters
plus the truncation marker's length, and an output of at most 20000
characters is returned as the log unchanged. -/
theorem run_tests_log_bounded (exit_code : Int) (out : List Char) :
    (run_tests exit_code out).log.length ≤ 20000 + truncMarker.length ∧
    (out.length ≤ 20000 → (run_tests exit_code out).log = out) := by
  have hm : truncMarker.length = 15 := rfl
  by_cases hlen : (20000 : Nat) < out.length
  · constructor
    · simp only [run_tests]
      rw [if_pos hlen]
      simp only [List.length_append, List.length_take, List.length_drop, hm]
      omega
    · intro hle
      exact absurd hlen (by omega)
  · constructor
    · simp only [run_tests]
      rw [if_neg hlen, hm]
      omega
    · intro _
      simp only [run_tests]
      rw [if_neg hlen]

/-- Witness for the C10 theorem: a short output is returned unchanged. -/
theorem run_tests_log_bounded_witness :
    (run_tests 0 ['o', 'k']).log = ['o', 'k'] :=
  (run_tests_log_bounded 0 ['o', 'k']).2 (by decide)

/-- C8 (counterexample): a captured output consisting of one 20001-character
line exceeds the ceiling, and the truncated log does not retain the
original last line verbatim — only its final 10000 characters survive in
the tail segment. -/
theorem run_tests_trunc_cex :
    20000 < (List.replicate 20001 'a').length ∧
    lastLine ((run_tests 0 (List.replicate 20001 'a')).log) ≠
      lastLine (List.replicate 20001 'a') := by
  constructor
  · rw [List.length_replicate]
    omega
  · have hlog : (run_tests 0 (List.replicate 20001 'a')).log =
        List.replicate 10000 'a' ++ truncMarker ++ List.replicate 10000 'a' := by
      simp only [run_tests]
      rw [if_pos (show (20000 : Nat) < (List.replicate 20001 'a').length by
        rw [List.length_replicate]; omega)]
      rw [show (20000 : Nat) / 2 = 10000 from rfl, List.take_replicate,
        List.drop_replicate, List.length_replicate,
        show min 10000 20001 = 10000 from by norm_num,
        show 20001 - (20001 - 10000) = 10000 from by norm_num]
    rw [hlog, List.append_assoc, ← List.append_assoc,
      lastLine_append_of_getLast _ _ (head_marker_getLast _),
      lastLine_replicate, lastLine_replicate]
    intro he
    have := congrArg List.length he
    simp only [List.length_replicate] at this
    omega

/-- C8 (amended): for every captured output longer than the 20000-character
ceiling, the returned log is the 10000-character head segment, the explicit
truncation marker, and the 10000-character tail segment, and it retains the
original last line of the output verbatim provided that last line is at
most 10000 characters long (a final line longer than the tail segment is
itself cut and survives only partially). -/
theorem run_tests_trunc_last_line (exit_code : Int) (out : List Char)
    (hlong : 20000 < out.length) (hshort : (lastLine out).length ≤ 10000) :
    (run_tests exit_code out).log =
      out.take 10000 ++ truncMarker ++ out.drop (out.length - 10000) ∧
    lastLine ((run_tests exit_code out).log) = lastLine out := by
  have hlog : (run_tests exit_code out).log =
      out.take 10000 ++ truncMarker ++ out.drop (out.length - 10000) := by
    simp only [run_tests]
    rw [if_pos hlong, show (20000 : Nat) / 2 = 10000 from rfl]
  refine ⟨hlog, ?_⟩
  rw [hlog, List.append_assoc, ← List.append_assoc,
    lastLine_append_of_getLast _ _ (head_marker_getLast _)]
  exact lastLine_drop_suffix out 10000 hshort

/-- Witness for the C8 theorem: an output of 20000 `a`s closed by a newline
is longer than the ceiling, its last line is empty, and the truncated log
ends with that same empty last line. -/
theorem run_tests_trunc_last_line_witness :
    lastLine ((run_tests 0
        (List.replicate 20000 'a' ++ ['\n'])).log) =
      lastLine (List.replicate 20000 'a' ++ ['\n']) :=
  (run_tests_trunc_last_line 0 (List.replicate 20000 'a' ++ ['\n'])
    (by
      rw [List.length_append, List.length_replicate]
      simp only [List.length_cons, List.length_nil]
      omega)
    (by
      rw [lastLine, List.reverse_concat, List.takeWhile_cons]
      simp)).2

/-- C7 (counterexample): a pytest run that completes with a collection
error — exit code 2, summary line "1 error in 0.10s" — yields a parsed
failed count of 0 with a non-zero exit code, so `exit_code == 0` iff
`failed == 0` does not hold for every completed run. -/
theorem run_tests_exit_failed_cex :
    (run_tests 2 "1 error in 0.10s".toList).failed = 0 ∧
    (run_tests 2 "1 error in 0.10s".toList).exit_code = 2 ∧
    ¬ ((run_tests 2 "1 error in 0.10s".toList).exit_code = 0 ↔
       (run_tests 2 "1 error in 0.10s".toList).failed = 0) := by
  decide

/-- C7 (amended): `run_tests` passes the raw exit code through and parses
the failed count from the output text alone, so whenever the captured
output contains no digits-then-whitespace-then-"failed" fragment — as in
the standard summary of a completed all-passing pytest run — the returned
failed count is 0; in particular `exit_code == 0` implies `failed == 0`
for such outputs, while the converse direction is not enforced by the
code (completed runs with collection errors or no tests parse to
`failed == 0` with a non-zero exit code). -/
theorem run_tests_failed_zero_of_no_match (exit_code : Int) (out : List Char)
    (h : findCount "failed".toList out = none) :
    (run_tests exit_code out).failed = 0 ∧
    (run_tests exit_code out).exit_code = exit_code := by
  have h' : findCount ['f', 'a', 'i', 'l', 'e', 'd'] out = none := h
  constructor
  · simp [run_tests, h']
  · simp [run_tests]

/-- Witness for the C7 theorem at a standard passing summary. -/
theorem run_tests_failed_zero_of_no_match_witness :
    (run_tests 0 "5 passed in 0.2s".toList).failed = 0 ∧
    (run_tests 0 "5 passed in 0.2s".toList).exit_code = 0 :=
  run_tests_failed_zero_of_no_match 0 "5 passed in 0.2s".toList (by decide)

end AgentTools
